import Mathlib

/-!
The rbd-mirror `Replayer`: reconciliation cycle and peer initialisation.

A shallow embedding of `src/tools/rbd_mirror/Replayer.cc`.

* `std::map<K, V>` is an association list held in key order, with the `CppMap`
  operations `find`, `insert` (which never overwrites) and `modify`;
  `m[k]` is `insert k` of an empty value followed by `find` or `modify`.
  That a map has no key twice is the hypothesis `unique_pools` or
  `map_of_sets` of the theorems that need it.
* `std::set<std::string>` is a list of image ids.
* `ImageReplayer` is not part of the file: its constructor, its `start` method
  and its copy constructor are the three fields of `ImageReplayerOps`.
* `librados::Rados` is not part of the file either: the return codes of the
  four calls `init` makes on the remote handle are the fields of `RemoteCluster`.
* The calls a function makes on its collaborators are returned next to its
  result, in the order they are made.
* The loop of `run` is a recursion on a bound for the number of times its
  condition is evaluated; what another thread does to `m_stopping` is the
  sequence of values the loop reads from it.
-/

namespace rbd.mirror

/-! ## `std::map` -/

namespace CppMap

variable {K V : Type}

/-- The call `map::find`: the value stored under `k`, or `none` for `end()`. -/
def find [DecidableEq K] (k : K) : List (K × V) → Option V
  | [] => none
  | (a, v) :: rest => if a = k then some v else find k rest

/-- The comparison `std::less<K>` that orders the keys of a map. -/
class KeyOrder (K : Type) where
  less : K → K → Bool

/-- The order `std::less<int64_t>`. -/
instance : KeyOrder Int := ⟨fun a b => decide (a < b)⟩

/-- Lexicographic comparison of two character sequences, character by
character, the shorter sequence first when the other one starts with it. -/
def chars_less : List Char → List Char → Bool
  | _, [] => false
  | [], _ :: _ => true
  | a :: as, b :: bs =>
    if a.toNat < b.toNat then true
    else if b.toNat < a.toNat then false
    else chars_less as bs

/-- The order `std::less<std::string>`. -/
instance : KeyOrder String := ⟨fun a b => chars_less a.data b.data⟩

/-- Placement of a new entry in key order: before the first larger key. -/
def place [KeyOrder K] (k : K) (v : V) : List (K × V) → List (K × V)
  | [] => [(k, v)]
  | (a, w) :: rest =>
    if KeyOrder.less k a then (k, v) :: (a, w) :: rest else (a, w) :: place k v rest

/-- The call `map::insert(make_pair(k, v))`: a map that already has `k` is left
as it is. -/
def insert [DecidableEq K] [KeyOrder K] (k : K) (v : V)
    (m : List (K × V)) : List (K × V) :=
  match find k m with
  | some _ => m
  | none => place k v m

/-- Assignment through the reference `m[k]` of an existing key: the stored
value becomes `f` of the old one. -/
def modify [DecidableEq K] (k : K) (f : V → V) : List (K × V) → List (K × V)
  | [] => []
  | (a, v) :: rest =>
    if a = k then (a, f v) :: rest else (a, v) :: modify k f rest

/-- The keys of a map, in iteration order. -/
def keys (m : List (K × V)) : List K := m.map Prod.fst

end CppMap

/-! ## Data model -/

/-- Pool id, an `int64_t`. -/
abbrev PoolId := Int

/-- Image id, a `std::string`. -/
abbrev ImageId := String

/-- The type `std::map<std::string, std::unique_ptr<ImageReplayer>>`. -/
abbrev ImageMap (W : Type) := List (ImageId × W)

/-- The type
`std::map<int64_t, std::map<std::string, std::unique_ptr<ImageReplayer>>>`:
the type of `m_images` and of `images_copy`. -/
abbrev ReplicaSet (W : Type) := List (PoolId × ImageMap W)

/-- The type `std::map<int64_t, std::set<std::string>>` of the argument of
`set_sources`. -/
abbrev DesiredState := List (PoolId × List ImageId)

/-- The three operations of `ImageReplayer` that `set_sources` uses.
`create p i` is `new ImageReplayer(m_local, m_remote, p, i)`; `start w` is the
return code of `w->start()` together with the worker after the call;
`copy w` is `new ImageReplayer(*w)`. -/
structure ImageReplayerOps (W : Type) where
  create : PoolId → ImageId → W
  start : W → Int × W
  copy : W → W

namespace Replayer

variable {W : Type}

/-- The worker stored under `(pool, image)`:
`m.find(pool)->second.find(image)->second`, or `none` when either `find`
gives `end()`. -/
def lookup (m : ReplicaSet W) (pool : PoolId) (image : ImageId) : Option W :=
  (CppMap.find pool m).bind (CppMap.find image)

/-- Whether `(pool, image)` is a key of the replica set. -/
def has_key (m : ReplicaSet W) (pool : PoolId) (image : ImageId) : Bool :=
  (lookup m pool image).isSome

/-- The `(poolId, imageId)` keys of a replica set, in iteration order. -/
def key_list (m : ReplicaSet W) : List (PoolId × ImageId) :=
  m.foldr (fun it acc => it.2.map (fun e => (it.1, e.1)) ++ acc) []

/-- Whether `(pool, image)` is a pair of the desired state:
`images.find(pool) != images.end()` and `images.at(pool).find(image)` is not
`end()`. -/
def desired (images : DesiredState) (pool : PoolId) (image : ImageId) : Bool :=
  match CppMap.find pool images with
  | none => false
  | some s => decide (image ∈ s)

/-- The pairs of a desired state, in iteration order. -/
def desired_list (images : DesiredState) : List (PoolId × ImageId) :=
  images.foldr (fun kv acc => kv.2.map (fun i => (kv.1, i)) ++ acc) []

/-- The return code of `start` on a freshly constructed worker for the pair. -/
def start_code (ops : ImageReplayerOps W) (pool : PoolId) (image : ImageId) : Int :=
  (ops.start (ops.create pool image)).1

/-- The statement `dst[pool].insert(make_pair(image, w))` (lines 108 and 154):
`operator[]` creates the pool entry when it is missing, `insert` leaves an
image that is already there untouched. -/
def insert_image (dst : ReplicaSet W) (pool : PoolId) (image : ImageId) (w : W) :
    ReplicaSet W :=
  CppMap.modify pool (CppMap.insert image w) (CppMap.insert pool [] dst)

/-- The nested copy loop of lines 106-111 (snapshot, `dst = images_copy`,
`src = m_images`) and of lines 152-157 (commit, `dst = m_images`,
`src = images_copy`). -/
def copy_into (ops : ImageReplayerOps W) (dst src : ReplicaSet W) : ReplicaSet W :=
  src.foldl
    (fun acc it => it.2.foldl (fun acc2 e => insert_image acc2 it.1 e.1 (ops.copy e.2)) acc)
    dst

/-- The removal pass of lines 114-131: a pool that `images` does not have is
erased, and in a pool that it has every image outside the pool's set is
erased. -/
def removal_pass (images : DesiredState) (images_copy : ReplicaSet W) : ReplicaSet W :=
  images_copy.filterMap fun it =>
    match CppMap.find it.1 images with
    | none => none
    | some s => some (it.1, it.2.filter fun e => decide (e.1 ∈ s))

/-- The inner loop of lines 137-149 over the image ids of one pool: the
resulting `pool_replayers` and the pairs `start` was called for. -/
def add_images (ops : ImageReplayerOps W) (pool_id : PoolId) :
    List ImageId → ImageMap W → ImageMap W × List (PoolId × ImageId)
  | [], pool_replayers => (pool_replayers, [])
  | image_id :: rest, pool_replayers =>
    match CppMap.find image_id pool_replayers with
    | some _ => add_images ops pool_id rest pool_replayers
    | none =>
      let r := ops.start (ops.create pool_id image_id)
      let next :=
        if r.1 < 0 then pool_replayers else CppMap.insert image_id r.2 pool_replayers
      let out := add_images ops pool_id rest next
      (out.1, (pool_id, image_id) :: out.2)

/-- The addition pass of lines 133-150: the resulting `images_copy` and the
pairs `start` was called for, in call order. -/
def addition_pass (ops : ImageReplayerOps W) :
    DesiredState → ReplicaSet W → ReplicaSet W × List (PoolId × ImageId)
  | [], images_copy => (images_copy, [])
  | kv :: rest, images_copy =>
    let touched := CppMap.insert kv.1 [] images_copy
    let pool_replayers := (CppMap.find kv.1 touched).getD []
    let res := add_images ops kv.1 kv.2 pool_replayers
    let out := addition_pass ops rest (CppMap.modify kv.1 (fun _ => res.1) touched)
    (out.1, res.2 ++ out.2)

/-- The working set `images_copy` as it is just before the commit, with the
pairs `start` was called for. -/
def working_set (ops : ImageReplayerOps W) (images : DesiredState)
    (m_images : ReplicaSet W) : ReplicaSet W × List (PoolId × ImageId) :=
  addition_pass ops images (removal_pass images (copy_into ops [] m_images))

/-- The function `Replayer::set_sources`: the new `m_images` and the pairs `start` was
called for, in call order. -/
def set_sources (ops : ImageReplayerOps W) (images : DesiredState)
    (m_images : ReplicaSet W) : ReplicaSet W × List (PoolId × ImageId) :=
  let w := working_set ops images m_images
  (copy_into ops m_images w.1, w.2)

/-- A replica set is a `std::map`: no pool id occurs twice among its keys. -/
@[reducible] def unique_pools (m : ReplicaSet W) : Prop := (CppMap.keys m).Nodup

/-- A desired state is a `std::map` of `std::set`s: no pool id occurs twice
among its keys and no image id occurs twice in a pool's set. -/
@[reducible] def map_of_sets (images : DesiredState) : Prop :=
  (CppMap.keys images).Nodup ∧ ∀ kv ∈ images, kv.2.Nodup

end Replayer

/-! ## A concrete worker, for evaluating the model -/

/-- A worker that records its pair and whether `start` has run on it. -/
structure TraceWorker where
  pool : PoolId
  image : ImageId
  started : Bool
  deriving DecidableEq, Repr

/-- Operations on `TraceWorker` in which `start` fails with `-1` exactly for
the pairs listed in `failing`, and a copy equals its original. -/
def traceOps (failing : List (PoolId × ImageId)) : ImageReplayerOps TraceWorker where
  create := fun p i => ⟨p, i, false⟩
  start := fun w =>
    if (w.pool, w.image) ∈ failing then (-1, w) else (0, { w with started := true })
  copy := fun w => w

/-- A worker that records its pair, whether `start` has run on it, and how
many copy constructions lie between it and the worker that was constructed for
the pair. -/
structure CopiedWorker where
  pool : PoolId
  image : ImageId
  started : Bool
  copies : Nat
  deriving DecidableEq, Repr

/-- Operations on `CopiedWorker` in which every `start` succeeds and the copy
constructor yields a new worker, one copy further from the original. -/
def copiedOps : ImageReplayerOps CopiedWorker where
  create := fun p i => ⟨p, i, false, 0⟩
  start := fun w => (0, { w with started := true })
  copy := fun w => { w with copies := w.copies + 1 }

/-! ## Peer initialisation -/

/-- The value of `EINVAL` in `errno.h`. -/
def EINVAL : Int := 22

/-- The fields of `peer_t` that `init` reads. -/
structure peer_t where
  cluster_uuid : String
  cluster_name : String
  client_name : String

/-- The remote handle `m_remote` as `init` sees it: the return code of each
call it makes, and for `cluster_fsid` also the string written through the
pointer. -/
structure RemoteCluster where
  init2 : String → String → Int
  conf_read_file : Int
  connect : Int
  cluster_fsid : Int × String

/-- The calls `init` makes on its collaborators. -/
inductive InitCall where
  | init2
  | conf_read_file
  | connect
  | cluster_fsid
  | new_pool_watcher (interval : Nat)
  | refresh_images
  deriving DecidableEq, Repr

/-- A constructed `PoolWatcher`: its refresh interval in seconds and the
number of `refresh_images` calls made on it. -/
structure PoolWatcher where
  interval : Nat
  refreshes : Nat
  deriving DecidableEq, Repr

/-- What `init` leaves behind: its return code, the calls it made in order,
and the member `m_pool_watcher` (`none` while the pointer is still empty). -/
structure InitResult where
  ret : Int
  calls : List InitCall
  m_pool_watcher : Option PoolWatcher
  deriving DecidableEq, Repr

namespace Replayer

/-- The function `Replayer::init`; the `dout` and `derr` log lines are left out. -/
def init (m_peer : peer_t) (m_remote : RemoteCluster) : InitResult :=
  let r := m_remote.init2 m_peer.client_name m_peer.cluster_name
  if r < 0 then ⟨r, [.init2], none⟩
  else
    let r := m_remote.conf_read_file
    if r < 0 then ⟨r, [.init2, .conf_read_file], none⟩
    else
      let r := m_remote.connect
      if r < 0 then ⟨r, [.init2, .conf_read_file, .connect], none⟩
      else
        let r := m_remote.cluster_fsid.1
        let cluster_uuid := m_remote.cluster_fsid.2
        if r < 0 then ⟨r, [.init2, .conf_read_file, .connect, .cluster_fsid], none⟩
        else if cluster_uuid ≠ m_peer.cluster_uuid then
          ⟨-EINVAL, [.init2, .conf_read_file, .connect, .cluster_fsid], none⟩
        else
          ⟨0, [.init2, .conf_read_file, .connect, .cluster_fsid, .new_pool_watcher 30,
            .refresh_images], some ⟨30, 1⟩⟩

/-- The four fallible steps of `init` in program order, each with the return
code the remote handle gives it. -/
def init_steps (m_peer : peer_t) (m_remote : RemoteCluster) : List (InitCall × Int) :=
  [(.init2, m_remote.init2 m_peer.client_name m_peer.cluster_name),
   (.conf_read_file, m_remote.conf_read_file),
   (.connect, m_remote.connect),
   (.cluster_fsid, m_remote.cluster_fsid.1)]

end Replayer

/-! ## The reconciliation loop -/

/-- What the loop of `run` meets in its iteration number `n`, counted from 0:
whether `m_stopping.read()` is non-zero when the loop condition is evaluated,
the map `m_pool_watcher->get_images()` returns, and the behaviour of the
workers that `set_sources` constructs in that iteration. -/
structure RunEnv (W : Type) where
  stopping : Nat → Bool
  get_images : Nat → DesiredState
  ops : Nat → ImageReplayerOps W

/-- The steps of `run`, in the order it takes them. -/
inductive RunStep where
  | read_stopping (value : Bool)
  | get_images
  | set_sources (images : DesiredState)
  | wait_interval (seconds : Nat)
  deriving DecidableEq, Repr

namespace Replayer

variable {W : Type}

/-- The loop of `Replayer::run` from iteration `n` on, with `fuel` bounding the
number of times the loop condition is evaluated: `none` when the bound is
reached before the loop is left, otherwise `m_images` as the loop leaves it
and the steps taken. -/
def run_from (env : RunEnv W) :
    Nat → Nat → ReplicaSet W → Option (ReplicaSet W × List RunStep)
  | 0, _, _ => none
  | fuel + 1, n, m_images =>
    if env.stopping n then some (m_images, [.read_stopping true])
    else
      let images := env.get_images n
      let next := (set_sources (env.ops n) images m_images).1
      match run_from env fuel (n + 1) next with
      | none => none
      | some out =>
        some (out.1,
          [.read_stopping false, .get_images, .set_sources images, .wait_interval 30] ++
            out.2)

/-- The function `Replayer::run`. -/
def run (env : RunEnv W) (fuel : Nat) (m_images : ReplicaSet W) :
    Option (ReplicaSet W × List RunStep) :=
  run_from env fuel 0 m_images

/-- The steps the loop description gives for `k` iterations that start at
iteration `n` and all find the stop flag clear: in each, the flag is read as
clear, the desired state is fetched once, one cycle is run against it, and the
loop waits for up to 30 seconds. -/
def clear_iterations (env : RunEnv W) : Nat → Nat → List RunStep
  | _, 0 => []
  | n, k + 1 =>
    [.read_stopping false, .get_images, .set_sources (env.get_images n), .wait_interval 30] ++
      clear_iterations env (n + 1) k

/-- The replica set after `k` reconciliation cycles that start at iteration
`n`, each run against the desired state fetched in its iteration. -/
def after_cycles (env : RunEnv W) : Nat → Nat → ReplicaSet W → ReplicaSet W
  | _, 0, m_images => m_images
  | n, k + 1, m_images =>
    after_cycles env (n + 1) k (set_sources (env.ops n) (env.get_images n) m_images).1

end Replayer

end rbd.mirror

/-! ## Facts about the `std::map` operations -/

namespace rbd.mirror.CppMap

variable {K V : Type} [DecidableEq K] [KeyOrder K]

theorem find_place_ne (k k2 : K) (v : V) (m : List (K × V)) (h : k2 ≠ k) :
    find k2 (place k v m) = find k2 m := by
  induction m with
  | nil => simp [place, find, Ne.symm h]
  | cons e rest ih =>
    obtain ⟨a, w⟩ := e
    by_cases hlt : KeyOrder.less k a = true
    · simp [place, hlt, find, Ne.symm h]
    · simp [place, hlt, find, ih]

theorem find_place_self (k : K) (v : V) (m : List (K × V)) (h : find k m = none) :
    find k (place k v m) = some v := by
  induction m with
  | nil => simp [place, find]
  | cons e rest ih =>
    obtain ⟨a, w⟩ := e
    by_cases hak : a = k
    · simp [find, hak] at h
    · simp only [find, hak, if_false] at h
      by_cases hlt : KeyOrder.less k a = true
      · simp [place, hlt, find]
      · simp [place, hlt, find, hak, ih h]

theorem find_insert (k k2 : K) (v : V) (m : List (K × V)) :
    find k2 (insert k v m) = if k2 = k then some ((find k m).getD v) else find k2 m := by
  unfold insert
  cases hf : find k m with
  | some w =>
    by_cases h : k2 = k
    · simp [h, hf]
    · simp [h]
  | none =>
    by_cases h : k2 = k
    · subst h
      simp [find_place_self _ _ _ hf]
    · simp [h, find_place_ne _ _ _ _ h]

omit [KeyOrder K] in
theorem find_modify (k k2 : K) (f : V → V) (m : List (K × V)) :
    find k2 (modify k f m) = if k2 = k then (find k m).map f else find k2 m := by
  induction m with
  | nil => simp [modify, find]
  | cons e rest ih =>
    obtain ⟨a, w⟩ := e
    by_cases hak : a = k
    · subst hak
      by_cases h : k2 = a
      · simp [modify, find, h]
      · simp [modify, find, h, Ne.symm h]
    · by_cases h : k2 = k
      · subst h
        simp [modify, find, hak, ih]
      · simp only [modify, hak, if_false, find, ih, h]

omit [KeyOrder K] in
theorem keys_modify (k : K) (f : V → V) (m : List (K × V)) :
    keys (modify k f m) = keys m := by
  induction m with
  | nil => rfl
  | cons e rest ih =>
    obtain ⟨a, w⟩ := e
    by_cases hak : a = k
    · simp [modify, hak, keys]
    · simp only [keys] at ih
      simp [modify, hak, keys, ih]

omit [KeyOrder K] in
theorem find_eq_none_iff (k : K) (m : List (K × V)) :
    find k m = none ↔ k ∉ keys m := by
  induction m with
  | nil => simp [find, keys]
  | cons e rest ih =>
    obtain ⟨a, w⟩ := e
    by_cases hak : a = k
    · simp [find, hak, keys]
    · simp only [keys] at ih
      simp [find, hak, keys, ih, Ne.symm hak]

omit [DecidableEq K] in
theorem mem_keys_place (x k : K) (v : V) (m : List (K × V)) :
    x ∈ keys (place k v m) ↔ x = k ∨ x ∈ keys m := by
  induction m with
  | nil => simp [place, keys]
  | cons e rest ih =>
    obtain ⟨a, w⟩ := e
    by_cases hlt : KeyOrder.less k a = true
    · simp [place, hlt, keys]
    · simp only [keys] at ih
      simp only [place, hlt, Bool.false_eq_true, if_false, keys, List.map_cons, List.mem_cons, ih]
      tauto

omit [DecidableEq K] in
theorem nodup_keys_place (k : K) (v : V) (m : List (K × V)) (hk : k ∉ keys m)
    (hn : (keys m).Nodup) : (keys (place k v m)).Nodup := by
  induction m with
  | nil => simp [place, keys]
  | cons e rest ih =>
    obtain ⟨a, w⟩ := e
    simp only [keys, List.map_cons, List.mem_cons, not_or, List.nodup_cons] at hk hn
    by_cases hlt : KeyOrder.less k a = true
    · simp only [place, hlt, if_true, keys, List.map_cons, List.nodup_cons, List.mem_cons,
        not_or]
      exact ⟨⟨hk.1, hk.2⟩, hn.1, hn.2⟩
    · have hmem := mem_keys_place a k v rest
      simp only [keys] at ih hmem
      simp only [place, hlt, Bool.false_eq_true, if_false, keys, List.map_cons, List.nodup_cons,
        hmem, not_or]
      exact ⟨⟨fun h => hk.1 h.symm, hn.1⟩, ih hk.2 hn.2⟩

omit [DecidableEq K] [KeyOrder K] in
theorem count_eq_one_of_nodup [BEq K] [LawfulBEq K] (a : K) (l : List K) (hn : l.Nodup)
    (h : a ∈ l) : List.count a l = 1 := by
  induction l with
  | nil => simp at h
  | cons b rest ih =>
    rw [List.nodup_cons] at hn
    rw [List.count_cons]
    rcases List.mem_cons.1 h with h1 | h1
    · subst h1
      simp [List.count_eq_zero_of_not_mem hn.1]
    · have hne : ¬ b = a := fun hb => hn.1 (hb ▸ h1)
      simp [ih hn.2 h1, hne]

theorem nodup_keys_insert (k : K) (v : V) (m : List (K × V)) (hn : (keys m).Nodup) :
    (keys (insert k v m)).Nodup := by
  unfold insert
  cases hf : find k m with
  | some w => exact hn
  | none => exact nodup_keys_place k v m ((find_eq_none_iff k m).1 hf) hn

end rbd.mirror.CppMap

/-! ## Facts about the passes of `set_sources` -/

namespace rbd.mirror.Replayer

open CppMap

variable {W : Type}

theorem lookup_insert_image (dst : ReplicaSet W) (p : PoolId) (i : ImageId) (w : W)
    (p2 : PoolId) (i2 : ImageId) :
    lookup (insert_image dst p i w) p2 i2 =
      if p2 = p ∧ i2 = i then some ((lookup dst p i).getD w) else lookup dst p2 i2 := by
  unfold lookup insert_image
  rw [find_modify]
  by_cases hp : p2 = p
  · subst hp
    rw [find_insert]
    simp only [if_true, Option.map_some', Option.some_bind, true_and]
    rw [find_insert]
    cases hf : find p2 dst with
    | none => simp [find]
    | some imgs => simp
  · simp [hp, find_insert]

theorem nodup_insert_image (dst : ReplicaSet W) (p : PoolId) (i : ImageId) (w : W)
    (hn : (keys dst).Nodup) : (keys (insert_image dst p i w)).Nodup := by
  unfold insert_image
  rw [keys_modify]
  exact nodup_keys_insert p [] dst hn

theorem lookup_copy_images (ops : ImageReplayerOps W) (p : PoolId) (imgs : ImageMap W)
    (acc : ReplicaSet W) (p2 : PoolId) (i2 : ImageId) :
    lookup (imgs.foldl (fun acc2 e => insert_image acc2 p e.1 (ops.copy e.2)) acc) p2 i2 =
      (lookup acc p2 i2).or (if p2 = p then (find i2 imgs).map ops.copy else none) := by
  induction imgs generalizing acc with
  | nil => simp [find]
  | cons e rest ih =>
    obtain ⟨a, w⟩ := e
    rw [List.foldl_cons, ih, lookup_insert_image]
    by_cases hp : p2 = p
    · subst hp
      by_cases ha : a = i2
      · subst ha
        cases hl : lookup acc p2 a <;> simp [find]
      · have ha2 : ¬ i2 = a := fun h => ha h.symm
        simp [find, ha, ha2]
    · simp [hp]

theorem nodup_copy_images (ops : ImageReplayerOps W) (p : PoolId) (imgs : ImageMap W)
    (acc : ReplicaSet W) (hn : (keys acc).Nodup) :
    (keys (imgs.foldl (fun acc2 e => insert_image acc2 p e.1 (ops.copy e.2)) acc)).Nodup := by
  induction imgs generalizing acc with
  | nil => exact hn
  | cons e rest ih =>
    rw [List.foldl_cons]
    exact ih _ (nodup_insert_image acc p e.1 _ hn)

theorem lookup_copy_into (ops : ImageReplayerOps W) (dst src : ReplicaSet W)
    (hn : (keys src).Nodup) (p : PoolId) (i : ImageId) :
    lookup (copy_into ops dst src) p i =
      (lookup dst p i).or ((lookup src p i).map ops.copy) := by
  unfold copy_into
  induction src generalizing dst with
  | nil => simp [lookup, find]
  | cons it rest ih =>
    obtain ⟨a, imgs⟩ := it
    simp only [keys, List.map_cons, List.nodup_cons] at hn
    rw [List.foldl_cons, ih _ hn.2, lookup_copy_images]
    by_cases hp : p = a
    · subst hp
      have hnone : find p rest = none := (find_eq_none_iff p rest).2 hn.1
      cases hl : lookup dst p i <;> simp [lookup, find, hnone]
    · have hp2 : ¬ a = p := fun h => hp h.symm
      simp [lookup, find, hp, hp2]

theorem nodup_copy_into (ops : ImageReplayerOps W) (dst src : ReplicaSet W)
    (hn : (keys dst).Nodup) : (keys (copy_into ops dst src)).Nodup := by
  unfold copy_into
  induction src generalizing dst with
  | nil => exact hn
  | cons it rest ih =>
    rw [List.foldl_cons]
    exact ih _ (nodup_copy_images ops it.1 it.2 dst hn)

theorem find_filter_key (s : List ImageId) (imgs : ImageMap W) (i : ImageId) :
    find i (imgs.filter fun e => decide (e.1 ∈ s)) = if i ∈ s then find i imgs else none := by
  induction imgs with
  | nil => simp [find]
  | cons e rest ih =>
    obtain ⟨a, w⟩ := e
    by_cases ha : a ∈ s
    · by_cases hai : a = i
      · subst hai
        simp [List.filter_cons, ha, find]
      · simp [List.filter_cons, ha, find, hai, ih]
    · by_cases hai : a = i
      · subst hai
        simp [List.filter_cons, ha, ih]
      · simp [List.filter_cons, ha, find, hai, ih]

theorem lookup_removal_pass (images : DesiredState) (ic : ReplicaSet W) (p : PoolId)
    (i : ImageId) :
    lookup (removal_pass images ic) p i =
      if desired images p i then lookup ic p i else none := by
  induction ic with
  | nil => simp [removal_pass, lookup, find]
  | cons it rest ih =>
    obtain ⟨a, imgs⟩ := it
    have hstep : removal_pass images ((a, imgs) :: rest) =
        match find a images with
        | none => removal_pass images rest
        | some s => (a, imgs.filter fun e => decide (e.1 ∈ s)) :: removal_pass images rest := by
      unfold removal_pass
      rw [List.filterMap_cons]
      cases find a images <;> rfl
    rw [hstep]
    by_cases hap : a = p
    · subst hap
      cases hf : find a images with
      | none =>
        simp only [ih, desired, hf]
        simp
      | some s =>
        by_cases hi : i ∈ s
        · simp [lookup, find, desired, hf, find_filter_key, hi]
        · simp [lookup, find, desired, hf, find_filter_key, hi]
    · cases hf : find a images with
      | none =>
        simp only [ih]
        simp [lookup, find, hap]
      | some s =>
        have ih2 := ih
        simp only [lookup] at ih2
        simp only [lookup, find, hap, if_false, ih2]

theorem keys_removal_pass_sublist (images : DesiredState) (ic : ReplicaSet W) :
    (keys (removal_pass images ic)).Sublist (keys ic) := by
  induction ic with
  | nil => simp [removal_pass, keys]
  | cons it rest ih =>
    obtain ⟨a, imgs⟩ := it
    unfold removal_pass keys at ih ⊢
    rw [List.filterMap_cons]
    cases hf : find a images with
    | none => exact List.Sublist.cons _ ih
    | some s => exact List.Sublist.cons₂ _ ih

theorem nodup_removal_pass (images : DesiredState) (ic : ReplicaSet W)
    (hn : (keys ic).Nodup) : (keys (removal_pass images ic)).Nodup :=
  List.Nodup.sublist (keys_removal_pass_sublist images ic) hn

theorem find_add_images (ops : ImageReplayerOps W) (p : PoolId) (ids : List ImageId)
    (pr : ImageMap W) (i : ImageId) :
    find i (add_images ops p ids pr).1 =
      (find i pr).or
        (if i ∈ ids ∧ 0 ≤ start_code ops p i then some (ops.start (ops.create p i)).2
         else none) := by
  induction ids generalizing pr with
  | nil => simp [add_images]
  | cons a rest ih =>
    unfold add_images
    cases hf : find a pr with
    | some w =>
      simp only [ih]
      by_cases hia : i = a
      · subst hia
        simp [hf]
      · simp [hia]
    | none =>
      simp only [ih]
      by_cases hneg : (ops.start (ops.create p a)).1 < 0
      · simp only [hneg, if_true]
        by_cases hia : i = a
        · subst hia
          have : ¬ 0 ≤ start_code ops p i := by simp [start_code, hneg]
          simp [this]
        · simp [hia]
      · simp only [hneg, if_false, find_insert]
        by_cases hia : i = a
        · subst hia
          have : 0 ≤ start_code ops p i := by
            simp only [start_code]; omega
          simp [hf, this]
        · simp [hia]

theorem calls_add_images (ops : ImageReplayerOps W) (p : PoolId) (ids : List ImageId)
    (pr : ImageMap W) (hn : ids.Nodup) :
    (add_images ops p ids pr).2 =
      (ids.filter fun i => (find i pr).isNone).map fun i => (p, i) := by
  induction ids generalizing pr with
  | nil => simp [add_images]
  | cons a rest ih =>
    rw [List.nodup_cons] at hn
    unfold add_images
    cases hf : find a pr with
    | some w => simp [ih pr hn.2, List.filter_cons, hf]
    | none =>
      simp only [ih _ hn.2, List.filter_cons, hf, Option.isNone_none, if_true, List.map_cons]
      congr 2
      apply List.filter_congr
      intro x hx
      have hxa : x ≠ a := fun h => hn.1 (h ▸ hx)
      by_cases hneg : (ops.start (ops.create p a)).1 < 0
      · simp [hneg]
      · simp [hneg, find_insert, hxa]

theorem lookup_modify_touched (ic : ReplicaSet W) (k : PoolId) (v : ImageMap W)
    (p : PoolId) (i : ImageId) :
    lookup (modify k (fun _ => v) (CppMap.insert k [] ic)) p i =
      if p = k then find i v else lookup ic p i := by
  unfold lookup
  rw [find_modify]
  by_cases hp : p = k
  · simp [hp, find_insert]
  · simp [hp, find_insert]

theorem find_touched (ic : ReplicaSet W) (k : PoolId) (i : ImageId) :
    find i ((find k (CppMap.insert k [] ic)).getD []) = lookup ic k i := by
  rw [find_insert]
  unfold lookup
  cases find k ic <;> simp [find]

theorem desired_cons (kv : PoolId × List ImageId) (rest : DesiredState) (p : PoolId)
    (i : ImageId) :
    desired (kv :: rest) p i =
      if kv.1 = p then decide (i ∈ kv.2) else desired rest p i := by
  obtain ⟨a, s⟩ := kv
  by_cases h : a = p <;> simp [desired, find, h]

theorem desired_eq_false_of_not_mem (images : DesiredState) (p : PoolId) (i : ImageId)
    (h : p ∉ keys images) : desired images p i = false := by
  simp [desired, (find_eq_none_iff p images).2 h]

theorem lookup_addition_pass (ops : ImageReplayerOps W) (images : DesiredState)
    (ic : ReplicaSet W) (hD : (keys images).Nodup) (p : PoolId) (i : ImageId) :
    lookup (addition_pass ops images ic).1 p i =
      (lookup ic p i).or
        (if desired images p i = true ∧ 0 ≤ start_code ops p i then
           some (ops.start (ops.create p i)).2
         else none) := by
  induction images generalizing ic with
  | nil => simp [addition_pass, desired, find]
  | cons kv rest ih =>
    simp only [keys, List.map_cons, List.nodup_cons] at hD
    unfold addition_pass
    simp only [ih _ hD.2, lookup_modify_touched, desired_cons]
    by_cases hp : p = kv.1
    · subst hp
      have hrest : desired rest kv.1 i = false :=
        desired_eq_false_of_not_mem rest kv.1 i hD.1
      simp [hrest, find_add_images, find_touched]
    · have hp2 : ¬ kv.1 = p := fun h => hp h.symm
      simp [hp, hp2]

theorem nodup_addition_pass (ops : ImageReplayerOps W) (images : DesiredState)
    (ic : ReplicaSet W) (hn : (keys ic).Nodup) :
    (keys (addition_pass ops images ic).1).Nodup := by
  induction images generalizing ic with
  | nil => exact hn
  | cons kv rest ih =>
    unfold addition_pass
    apply ih
    rw [keys_modify]
    exact nodup_keys_insert kv.1 [] ic hn

theorem fst_mem_keys_of_mem_desired_list (images : DesiredState) (q : PoolId × ImageId)
    (h : q ∈ desired_list images) : q.1 ∈ keys images := by
  induction images with
  | nil => simp [desired_list] at h
  | cons kv rest ih =>
    simp only [desired_list, List.foldr_cons, List.mem_append, List.mem_map] at h
    rcases h with ⟨x, _, hx⟩ | h
    · subst hx
      simp [keys]
    · have := ih h
      simp only [keys] at this
      simp [keys, this]

theorem mem_desired_list (images : DesiredState) (hD : (keys images).Nodup)
    (p : PoolId) (i : ImageId) :
    (p, i) ∈ desired_list images ↔ desired images p i = true := by
  induction images with
  | nil => simp [desired_list, desired, find]
  | cons kv rest ih =>
    simp only [keys, List.map_cons, List.nodup_cons] at hD
    have hstep : desired_list (kv :: rest) =
        kv.2.map (fun i => (kv.1, i)) ++ desired_list rest := rfl
    rw [hstep, desired_cons, List.mem_append, ih hD.2]
    by_cases hp : kv.1 = p
    · subst hp
      have hrest : desired rest kv.1 i = false := desired_eq_false_of_not_mem rest kv.1 i hD.1
      simp [hrest]
    · have : ∀ x, ¬ (kv.1 = p ∧ x = i) := fun x h => hp h.1
      simp [hp]

theorem nodup_desired_list (images : DesiredState) (hD : (keys images).Nodup)
    (hs : ∀ kv ∈ images, kv.2.Nodup) : (desired_list images).Nodup := by
  induction images with
  | nil => simp [desired_list]
  | cons kv rest ih =>
    simp only [keys, List.map_cons, List.nodup_cons] at hD
    have hstep : desired_list (kv :: rest) =
        kv.2.map (fun i => (kv.1, i)) ++ desired_list rest := rfl
    rw [hstep, List.nodup_append]
    refine ⟨?_, ih hD.2 (fun x hx => hs x (List.mem_cons_of_mem _ hx)), ?_⟩
    · apply List.Nodup.map _ (hs kv (List.mem_cons_self _ _))
      intro x y hxy
      exact (Prod.mk.inj hxy).2
    · intro q hq1 hq2
      have hk := fst_mem_keys_of_mem_desired_list rest q hq2
      simp only [List.mem_map] at hq1
      obtain ⟨x, _, hx⟩ := hq1
      subst hx
      exact hD.1 hk

theorem calls_addition_pass (ops : ImageReplayerOps W) (images : DesiredState)
    (ic : ReplicaSet W) (hD : (keys images).Nodup) (hs : ∀ kv ∈ images, kv.2.Nodup) :
    (addition_pass ops images ic).2 =
      (desired_list images).filter fun q => !(has_key ic q.1 q.2) := by
  induction images generalizing ic with
  | nil => simp [addition_pass, desired_list]
  | cons kv rest ih =>
    simp only [keys, List.map_cons, List.nodup_cons] at hD
    have hstep : desired_list (kv :: rest) =
        kv.2.map (fun i => (kv.1, i)) ++ desired_list rest := rfl
    unfold addition_pass
    simp only [hstep, List.filter_append,
      ih _ hD.2 (fun x hx => hs x (List.mem_cons_of_mem _ hx)),
      calls_add_images ops kv.1 kv.2 _ (hs kv (List.mem_cons_self _ _))]
    congr 1
    · rw [List.filter_map]
      congr 1
      apply List.filter_congr
      intro x _
      simp [has_key, find_touched]
    · apply List.filter_congr
      intro q hq
      have hk := fst_mem_keys_of_mem_desired_list rest q hq
      have hne : q.1 ≠ kv.1 := fun h => hD.1 (h ▸ hk)
      simp [has_key, lookup_modify_touched, hne]

/-! ## The cycle as a whole -/

theorem nodup_working_set (ops : ImageReplayerOps W) (images : DesiredState)
    (m_images : ReplicaSet W) : (keys (working_set ops images m_images).1).Nodup := by
  unfold working_set
  apply nodup_addition_pass
  apply nodup_removal_pass
  apply nodup_copy_into
  simp [keys]

theorem lookup_working_set (ops : ImageReplayerOps W) (images : DesiredState)
    (m_images : ReplicaSet W) (hM : unique_pools m_images) (hD : (keys images).Nodup)
    (p : PoolId) (i : ImageId) :
    lookup (working_set ops images m_images).1 p i =
      if desired images p i = true then
        ((lookup m_images p i).map ops.copy).or
          (if 0 ≤ start_code ops p i then some (ops.start (ops.create p i)).2 else none)
      else none := by
  unfold working_set
  rw [lookup_addition_pass ops images _ hD, lookup_removal_pass,
    lookup_copy_into ops [] m_images hM]
  by_cases hd : desired images p i = true
  · simp [hd, lookup, find]
  · simp [hd]

theorem lookup_set_sources (ops : ImageReplayerOps W) (images : DesiredState)
    (m_images : ReplicaSet W) (hM : unique_pools m_images) (hD : (keys images).Nodup)
    (p : PoolId) (i : ImageId) :
    lookup (set_sources ops images m_images).1 p i =
      (lookup m_images p i).or
        (if desired images p i = true ∧ 0 ≤ start_code ops p i then
           some (ops.copy (ops.start (ops.create p i)).2)
         else none) := by
  unfold set_sources
  simp only
  rw [lookup_copy_into ops m_images _ (nodup_working_set ops images m_images),
    lookup_working_set ops images m_images hM hD]
  cases hl : lookup m_images p i with
  | some w => simp
  | none =>
    by_cases hd : desired images p i = true
    · by_cases hs : 0 ≤ start_code ops p i <;> simp [hd, hs]
    · simp [hd]

theorem has_key_set_sources (ops : ImageReplayerOps W) (images : DesiredState)
    (m_images : ReplicaSet W) (hM : unique_pools m_images) (hD : (keys images).Nodup)
    (p : PoolId) (i : ImageId) :
    has_key (set_sources ops images m_images).1 p i =
      (has_key m_images p i || (desired images p i && decide (0 ≤ start_code ops p i))) := by
  unfold has_key
  rw [lookup_set_sources ops images m_images hM hD]
  cases hl : lookup m_images p i with
  | some w => simp
  | none =>
    by_cases hd : desired images p i = true
    · by_cases hs : 0 ≤ start_code ops p i <;> simp [hd, hs]
    · simp [hd]

theorem unique_pools_set_sources (ops : ImageReplayerOps W) (images : DesiredState)
    (m_images : ReplicaSet W) (hM : unique_pools m_images) :
    unique_pools (set_sources ops images m_images).1 := by
  unfold set_sources unique_pools
  exact nodup_copy_into ops m_images _ hM

theorem calls_set_sources (ops : ImageReplayerOps W) (images : DesiredState)
    (m_images : ReplicaSet W) (hM : unique_pools m_images) (hD : map_of_sets images) :
    (set_sources ops images m_images).2 =
      (desired_list images).filter fun q => !(has_key m_images q.1 q.2) := by
  unfold set_sources working_set
  simp only
  rw [calls_addition_pass ops images _ hD.1 hD.2]
  apply List.filter_congr
  intro q hq
  have hd : desired images q.1 q.2 = true := (mem_desired_list images hD.1 q.1 q.2).1 hq
  simp only [has_key, lookup_removal_pass, hd, if_true, lookup_copy_into ops [] m_images hM]
  cases hl : lookup m_images q.1 q.2 <;> simp [lookup, find]

theorem mem_calls_set_sources (ops : ImageReplayerOps W) (images : DesiredState)
    (m_images : ReplicaSet W) (hM : unique_pools m_images) (hD : map_of_sets images)
    (p : PoolId) (i : ImageId) :
    (p, i) ∈ (set_sources ops images m_images).2 ↔
      desired images p i = true ∧ has_key m_images p i = false := by
  rw [calls_set_sources ops images m_images hM hD, List.mem_filter,
    mem_desired_list images hD.1]
  simp

end rbd.mirror.Replayer

/-! ## The reconciliation cycle: settled properties -/

namespace rbd.mirror.Replayer

open CppMap

variable {W : Type}

/-- C1: the key set after a cycle is not the desired key set minus the failed
pairs. From `m_images = {1: {"img1"}}` and the empty desired state, with no
`start` call made at all, the pair `(1, "img1")` is still a key of `m_images`
after `set_sources`: the removal pass drops it from the working set only, and
the commit loop inserts into `m_images` without erasing anything. -/
theorem set_sources_keeps_undesired_key :
    key_list (set_sources (traceOps []) [] [(1, [("img1", ⟨1, "img1", true⟩)])]).1 =
        [(1, "img1")] ∧
      (working_set (traceOps []) [] [(1, [("img1", ⟨1, "img1", true⟩)])]).1 = [] ∧
      (set_sources (traceOps []) [] [(1, [("img1", ⟨1, "img1", true⟩)])]).2 = [] ∧
      desired_list [] = [] := by
  decide

/-- C2: a key that is in `m_images` before the cycle and absent from the
desired state is not removed by the commit. From
`m_images = {1: {"img1"}, 2: {"img9"}}` and `D = {1: {"img1"}}` the pair
`(2, "img9")` is a key before the cycle, is not desired, is dropped from the
working set, and is still a key of `m_images` after the cycle. -/
theorem set_sources_commit_keeps_removed_key :
    has_key [(1, [("img1", (⟨1, "img1", true⟩ : TraceWorker))]),
        (2, [("img9", ⟨2, "img9", true⟩)])] 2 "img9" = true ∧
      desired [(1, ["img1"])] 2 "img9" = false ∧
      has_key (working_set (traceOps []) [(1, ["img1"])]
        [(1, [("img1", ⟨1, "img1", true⟩)]), (2, [("img9", ⟨2, "img9", true⟩)])]).1
        2 "img9" = false ∧
      has_key (set_sources (traceOps []) [(1, ["img1"])]
        [(1, [("img1", ⟨1, "img1", true⟩)]), (2, [("img9", ⟨2, "img9", true⟩)])]).1
        2 "img9" = true := by
  decide

/-- C3: the scenario `D1 = {1: {"img1"}}`, `D2 = {1: {"img1", "img2"}}`,
`D3 = {1: {"img2"}}` run from the empty replica set with every `start`
succeeding. The key sets after the first two cycles are the desired ones; after
the third cycle the key set is still `{(1, "img1"), (1, "img2")}` and not
`{(1, "img2")}`. -/
theorem set_sources_scenario_third_cycle :
    key_list (set_sources (traceOps []) [(1, ["img1"])] []).1 = [(1, "img1")] ∧
      key_list (set_sources (traceOps []) [(1, ["img1", "img2"])]
        (set_sources (traceOps []) [(1, ["img1"])] []).1).1 =
        [(1, "img1"), (1, "img2")] ∧
      key_list (set_sources (traceOps []) [(1, ["img2"])]
        (set_sources (traceOps []) [(1, ["img1", "img2"])]
          (set_sources (traceOps []) [(1, ["img1"])] []).1).1).1 =
        [(1, "img1"), (1, "img2")] ∧
      desired_list [(1, ["img2"])] = [(1, "img2")] := by
  decide

/-- C4 (idempotence): when every `start` attempted in a cycle against `D`
succeeds, a second cycle against the same `D`, whatever its `start` would
return, calls `start` for no pair and leaves under every key of `m_images` the
worker that was there (and no worker under any other key). -/
theorem set_sources_idempotent (ops ops2 : ImageReplayerOps W) (images : DesiredState)
    (m_images : ReplicaSet W) (hM : unique_pools m_images) (hD : map_of_sets images)
    (hok : ∀ q ∈ (set_sources ops images m_images).2, 0 ≤ start_code ops q.1 q.2) :
    (set_sources ops2 images (set_sources ops images m_images).1).2 = [] ∧
      ∀ p i, lookup (set_sources ops2 images (set_sources ops images m_images).1).1 p i =
        lookup (set_sources ops images m_images).1 p i := by
  have hM1 := unique_pools_set_sources ops images m_images hM
  have hall : ∀ p i, desired images p i = true →
      has_key (set_sources ops images m_images).1 p i = true := by
    intro p i hd
    rw [has_key_set_sources ops images m_images hM hD.1]
    cases hk : has_key m_images p i with
    | true => simp
    | false =>
      have hc := (mem_calls_set_sources ops images m_images hM hD p i).2 ⟨hd, hk⟩
      have := hok (p, i) hc
      simp [hd, this]
  constructor
  · rw [calls_set_sources ops2 images _ hM1 hD, List.filter_eq_nil_iff]
    intro q hq
    have hd := (mem_desired_list images hD.1 q.1 q.2).1 hq
    simp [hall q.1 q.2 hd]
  · intro p i
    rw [lookup_set_sources ops2 images _ hM1 hD.1]
    cases hl : lookup (set_sources ops images m_images).1 p i with
    | some w => simp
    | none =>
      by_cases hd : desired images p i = true
      · have := hall p i hd
        simp [has_key, hl] at this
      · simp [hd]

/-- C5 (retry): when cycle N, run against `D_N`, calls `start` for `(p, i)` and
the call fails, and `(p, i)` is a pair of `D_N+1`, then cycle N+1, run on the
`m_images` that cycle N committed, calls `start` for `(p, i)` again. -/
theorem set_sources_retries_failed_start (opsN opsN1 : ImageReplayerOps W)
    (imagesN imagesN1 : DesiredState) (m_images : ReplicaSet W)
    (hM : unique_pools m_images) (hDN : map_of_sets imagesN) (hDN1 : map_of_sets imagesN1)
    (p : PoolId) (i : ImageId)
    (hcalled : (p, i) ∈ (set_sources opsN imagesN m_images).2)
    (hfail : start_code opsN p i < 0)
    (hstill : desired imagesN1 p i = true) :
    (p, i) ∈ (set_sources opsN1 imagesN1 (set_sources opsN imagesN m_images).1).2 := by
  have hM1 := unique_pools_set_sources opsN imagesN m_images hM
  have hc := (mem_calls_set_sources opsN imagesN m_images hM hDN p i).1 hcalled
  rw [mem_calls_set_sources opsN1 imagesN1 _ hM1 hDN1]
  refine ⟨hstill, ?_⟩
  rw [has_key_set_sources opsN imagesN m_images hM hDN.1, hc.2]
  have : ¬ 0 ≤ start_code opsN p i := by omega
  simp [this]

/-- C6 (a `start` failure is not fatal): the cycle always produces its result;
a pair whose `start` call failed is not a key of `m_images` after the commit,
and every pair of `D` that is not a key of `M` and whose `start` succeeds is a
key of `m_images` after the commit, whichever other pairs fail. -/
theorem set_sources_start_failure_not_fatal (ops : ImageReplayerOps W)
    (images : DesiredState) (m_images : ReplicaSet W) (hM : unique_pools m_images)
    (hD : map_of_sets images) :
    (∀ p i, (p, i) ∈ (set_sources ops images m_images).2 → start_code ops p i < 0 →
        has_key (set_sources ops images m_images).1 p i = false) ∧
      (∀ p i, desired images p i = true → has_key m_images p i = false →
        0 ≤ start_code ops p i →
        (p, i) ∈ (set_sources ops images m_images).2 ∧
          has_key (set_sources ops images m_images).1 p i = true) := by
  constructor
  · intro p i hc hneg
    have h := (mem_calls_set_sources ops images m_images hM hD p i).1 hc
    rw [has_key_set_sources ops images m_images hM hD.1, h.2]
    have : ¬ 0 ≤ start_code ops p i := by omega
    simp [this]
  · intro p i hd hk hs
    refine ⟨(mem_calls_set_sources ops images m_images hM hD p i).2 ⟨hd, hk⟩, ?_⟩
    rw [has_key_set_sources ops images m_images hM hD.1]
    simp [hd, hs]

/-- C7: in one cycle `start` is called exactly once for each pair that is in
`D` and is not a key of `M`, and is called for no other pair. -/
theorem set_sources_start_called_once (ops : ImageReplayerOps W) (images : DesiredState)
    (m_images : ReplicaSet W) (hM : unique_pools m_images) (hD : map_of_sets images)
    (p : PoolId) (i : ImageId) :
    (set_sources ops images m_images).2.count (p, i) =
      if desired images p i = true ∧ has_key m_images p i = false then 1 else 0 := by
  have hmem := mem_calls_set_sources ops images m_images hM hD p i
  have hnd : (set_sources ops images m_images).2.Nodup := by
    rw [calls_set_sources ops images m_images hM hD]
    exact List.Nodup.filter _ (nodup_desired_list images hD.1 hD.2)
  by_cases h : desired images p i = true ∧ has_key m_images p i = false
  · rw [if_pos h]
    exact count_eq_one_of_nodup (p, i) _ hnd (hmem.2 h)
  · rw [if_neg h]
    exact List.count_eq_zero_of_not_mem (fun hc => h (hmem.1 hc))

/-- C8, as the code has it: after the commit every key of the working set is
a key of `m_images`. For a key that `m_images` already had before the cycle,
the worker stored under it is the one `m_images` had, and the working set's
worker is a copy of it; for a key that `m_images` did not have, the worker
stored under it is a copy of the working set's worker. -/
theorem set_sources_commit_stores_copies (ops : ImageReplayerOps W)
    (images : DesiredState) (m_images : ReplicaSet W) (hM : unique_pools m_images)
    (hD : map_of_sets images) (p : PoolId) (i : ImageId) (w : W)
    (hw : lookup (working_set ops images m_images).1 p i = some w) :
    has_key (set_sources ops images m_images).1 p i = true ∧
      (∀ w0, lookup m_images p i = some w0 →
        w = ops.copy w0 ∧ lookup (set_sources ops images m_images).1 p i = some w0) ∧
      (lookup m_images p i = none →
        lookup (set_sources ops images m_images).1 p i = some (ops.copy w)) := by
  rw [lookup_working_set ops images m_images hM hD.1] at hw
  unfold has_key
  rw [lookup_set_sources ops images m_images hM hD.1]
  by_cases hd : desired images p i = true
  · simp only [hd, if_true, true_and] at hw ⊢
    cases hl : lookup m_images p i with
    | some w1 =>
      simp only [hl, Option.map_some', Option.or_some, Option.some.injEq] at hw ⊢
      subst hw
      refine ⟨rfl, ?_, ?_⟩
      · intro w0 h0
        subst h0
        exact ⟨rfl, rfl⟩
      · intro h0
        exact absurd h0 (by simp)
    | none =>
      simp only [hl, Option.map_none', Option.none_or] at hw ⊢
      by_cases hs : 0 ≤ start_code ops p i
      · simp only [hs, if_true, Option.some.injEq] at hw ⊢
        subst hw
        refine ⟨rfl, ?_, fun _ => rfl⟩
        intro w0 h0
        exact absurd h0 (by simp)
      · simp [hs] at hw
  · simp [hd] at hw

/-- C8, as the claim states it, fails: from `m_images = {1: {"img1"}}` and
`D = {1: {"img1", "img2"}}`, with a copy constructor that yields a new worker,
the worker stored in `m_images` under the added key `(1, "img2")` is a copy of
the working set's worker, and under the retained key `(1, "img1")` the working
set holds a copy of the worker that `m_images` keeps; in neither case is the
stored worker the working set's. -/
theorem set_sources_commit_worker_differs :
    lookup (working_set copiedOps [(1, ["img1", "img2"])]
        [(1, [("img1", ⟨1, "img1", true, 0⟩)])]).1 1 "img2" =
        some ⟨1, "img2", true, 0⟩ ∧
      lookup (set_sources copiedOps [(1, ["img1", "img2"])]
        [(1, [("img1", ⟨1, "img1", true, 0⟩)])]).1 1 "img2" =
        some ⟨1, "img2", true, 1⟩ ∧
      lookup (working_set copiedOps [(1, ["img1", "img2"])]
        [(1, [("img1", ⟨1, "img1", true, 0⟩)])]).1 1 "img1" =
        some ⟨1, "img1", true, 1⟩ ∧
      lookup (set_sources copiedOps [(1, ["img1", "img2"])]
        [(1, [("img1", ⟨1, "img1", true, 0⟩)])]).1 1 "img1" =
        some ⟨1, "img1", true, 0⟩ ∧
      ¬ ∀ p i w,
        lookup (working_set copiedOps [(1, ["img1", "img2"])]
          [(1, [("img1", ⟨1, "img1", true, 0⟩)])]).1 p i = some w →
        lookup (set_sources copiedOps [(1, ["img1", "img2"])]
          [(1, [("img1", ⟨1, "img1", true, 0⟩)])]).1 p i = some w :=
  ⟨by decide, by decide, by decide, by decide,
    fun h => absurd (h 1 "img2" ⟨1, "img2", true, 0⟩ (by decide)) (by decide)⟩

/-- Witness for C4: from `m_images = {1: {"img1"}}` a cycle against
`{1: {"img1", "img2"}, 2: {"a"}}` in which every `start` succeeds, followed by a
cycle in which every `start` would fail. -/
theorem set_sources_idempotent_witness :
    unique_pools [(1, [("img1", (⟨1, "img1", true⟩ : TraceWorker))])] ∧
      map_of_sets [(1, ["img1", "img2"]), (2, ["a"])] ∧
      (set_sources (traceOps [(1, "img1"), (1, "img2"), (2, "a")])
        [(1, ["img1", "img2"]), (2, ["a"])]
        (set_sources (traceOps []) [(1, ["img1", "img2"]), (2, ["a"])]
          [(1, [("img1", ⟨1, "img1", true⟩)])]).1).2 = [] ∧
      ∀ p i, lookup (set_sources (traceOps [(1, "img1"), (1, "img2"), (2, "a")])
          [(1, ["img1", "img2"]), (2, ["a"])]
          (set_sources (traceOps []) [(1, ["img1", "img2"]), (2, ["a"])]
            [(1, [("img1", ⟨1, "img1", true⟩)])]).1).1 p i =
        lookup (set_sources (traceOps []) [(1, ["img1", "img2"]), (2, ["a"])]
          [(1, [("img1", ⟨1, "img1", true⟩)])]).1 p i :=
  ⟨by decide, by decide,
    set_sources_idempotent (traceOps []) (traceOps [(1, "img1"), (1, "img2"), (2, "a")])
      [(1, ["img1", "img2"]), (2, ["a"])] [(1, [("img1", ⟨1, "img1", true⟩)])]
      (by decide) (by decide) (by decide)⟩

/-- Witness for C5: `start` fails for `(1, "img2")` in the first cycle and the
pair is started again in the second. -/
theorem set_sources_retries_failed_start_witness :
    (1, "img2") ∈ (set_sources (traceOps [(1, "img2")]) [(1, ["img1", "img2"])]
        ([] : ReplicaSet TraceWorker)).2 ∧
      start_code (traceOps [(1, "img2")]) 1 "img2" < 0 ∧
      desired [(1, ["img2"]), (3, ["z"])] 1 "img2" = true ∧
      (1, "img2") ∈ (set_sources (traceOps []) [(1, ["img2"]), (3, ["z"])]
        (set_sources (traceOps [(1, "img2")]) [(1, ["img1", "img2"])] []).1).2 :=
  ⟨by decide, by decide, by decide,
    set_sources_retries_failed_start (traceOps [(1, "img2")]) (traceOps [])
      [(1, ["img1", "img2"])] [(1, ["img2"]), (3, ["z"])] [] (by decide) (by decide)
      (by decide) 1 "img2" (by decide) (by decide) (by decide)⟩

/-- Witness for C6: of the three new images of pool 1 the middle one fails to
start; it is not a key afterwards and the one after it is. -/
theorem set_sources_start_failure_not_fatal_witness :
    has_key (set_sources (traceOps [(1, "b")]) [(1, ["a", "b", "c"])]
        ([] : ReplicaSet TraceWorker)).1 1 "b" = false ∧
      has_key (set_sources (traceOps [(1, "b")]) [(1, ["a", "b", "c"])]
        ([] : ReplicaSet TraceWorker)).1 1 "c" = true :=
  ⟨(set_sources_start_failure_not_fatal (traceOps [(1, "b")]) [(1, ["a", "b", "c"])] []
      (by decide) (by decide)).1 1 "b" (by decide) (by decide),
    ((set_sources_start_failure_not_fatal (traceOps [(1, "b")]) [(1, ["a", "b", "c"])] []
      (by decide) (by decide)).2 1 "c" (by decide) (by decide) (by decide)).2⟩

/-- Witness for C7: with `"img1"` already running, `start` is called once for
`"img2"` and not at all for `"img1"`. -/
theorem set_sources_start_called_once_witness :
    (set_sources (traceOps []) [(1, ["img1", "img2"])]
        [(1, [("img1", ⟨1, "img1", true⟩)])]).2.count (1, "img2") = 1 ∧
      (set_sources (traceOps []) [(1, ["img1", "img2"])]
        [(1, [("img1", ⟨1, "img1", true⟩)])]).2.count (1, "img1") = 0 :=
  ⟨set_sources_start_called_once (traceOps []) [(1, ["img1", "img2"])]
      [(1, [("img1", ⟨1, "img1", true⟩)])] (by decide) (by decide) 1 "img2",
    set_sources_start_called_once (traceOps []) [(1, ["img1", "img2"])]
      [(1, [("img1", ⟨1, "img1", true⟩)])] (by decide) (by decide) 1 "img1"⟩

/-- Witness for C8: with a copy constructor that yields a new worker, the
added key `(1, "img2")` is stored as a copy of the working set's worker, and
the retained key `(1, "img1")` keeps the worker `m_images` had. -/
theorem set_sources_commit_stores_copies_witness :
    lookup (set_sources copiedOps [(1, ["img1", "img2"])]
        [(1, [("img1", ⟨1, "img1", true, 0⟩)])]).1 1 "img2" =
        some (copiedOps.copy ⟨1, "img2", true, 0⟩) ∧
      lookup (set_sources copiedOps [(1, ["img1", "img2"])]
        [(1, [("img1", ⟨1, "img1", true, 0⟩)])]).1 1 "img1" =
        some ⟨1, "img1", true, 0⟩ :=
  ⟨(set_sources_commit_stores_copies copiedOps [(1, ["img1", "img2"])]
      [(1, [("img1", ⟨1, "img1", true, 0⟩)])] (by decide) (by decide) 1 "img2"
      ⟨1, "img2", true, 0⟩ (by decide)).2.2 (by decide),
    ((set_sources_commit_stores_copies copiedOps [(1, ["img1", "img2"])]
      [(1, [("img1", ⟨1, "img1", true, 0⟩)])] (by decide) (by decide) 1 "img1"
      ⟨1, "img1", true, 1⟩ (by decide)).2.1 ⟨1, "img1", true, 0⟩ (by decide)).2⟩

/-! ## Peer initialisation: settled properties -/

/-- C9 (identity guard): when `init2`, `conf_read_file`, `connect` and
`cluster_fsid` all succeed and the fetched fsid differs from the peer's
expected cluster uuid, `init` returns `-EINVAL`, `m_pool_watcher` is left
empty, and the calls made are the four remote calls only: no `PoolWatcher` is
constructed and `refresh_images` is not called. -/
theorem init_identity_mismatch (m_peer : peer_t) (m_remote : RemoteCluster)
    (h1 : 0 ≤ m_remote.init2 m_peer.client_name m_peer.cluster_name)
    (h2 : 0 ≤ m_remote.conf_read_file) (h3 : 0 ≤ m_remote.connect)
    (h4 : 0 ≤ m_remote.cluster_fsid.1)
    (hne : m_remote.cluster_fsid.2 ≠ m_peer.cluster_uuid) :
    (init m_peer m_remote).ret = -EINVAL ∧
      (init m_peer m_remote).m_pool_watcher = none ∧
      (init m_peer m_remote).calls =
        [.init2, .conf_read_file, .connect, .cluster_fsid] := by
  have e1 : ¬ m_remote.init2 m_peer.client_name m_peer.cluster_name < 0 := by omega
  have e2 : ¬ m_remote.conf_read_file < 0 := by omega
  have e3 : ¬ m_remote.connect < 0 := by omega
  have e4 : ¬ m_remote.cluster_fsid.1 < 0 := by omega
  simp [init, e1, e2, e3, e4, hne]

/-- Witness for C9: expected uuid "X", observed fsid "Y". -/
theorem init_identity_mismatch_witness :
    (init ⟨"X", "remote", "client.admin"⟩ ⟨fun _ _ => 0, 0, 0, (0, "Y")⟩).ret = -EINVAL ∧
      (init ⟨"X", "remote", "client.admin"⟩ ⟨fun _ _ => 0, 0, 0, (0, "Y")⟩).m_pool_watcher =
        none ∧
      (init ⟨"X", "remote", "client.admin"⟩ ⟨fun _ _ => 0, 0, 0, (0, "Y")⟩).calls =
        [.init2, .conf_read_file, .connect, .cluster_fsid] :=
  init_identity_mismatch ⟨"X", "remote", "client.admin"⟩ ⟨fun _ _ => 0, 0, 0, (0, "Y")⟩
    (by decide) (by decide) (by decide) (by decide) (by decide)

/-- C10 (fail-fast): the fallible steps are `init2`, `conf_read_file`,
`connect`, `cluster_fsid` in this order; when the steps `done` before one of
them all return a non-negative code and that step `failed` returns a negative
code, `init` returns that code, the calls it has made are those of `done`
followed by the failed one and nothing after it, and `m_pool_watcher` is left
empty. -/
theorem init_fail_fast (m_peer : peer_t) (m_remote : RemoteCluster)
    (done : List (InitCall × Int)) (failed : InitCall × Int)
    (later : List (InitCall × Int))
    (hsteps : init_steps m_peer m_remote = done ++ failed :: later)
    (hdone : ∀ s ∈ done, 0 ≤ s.2) (hfail : failed.2 < 0) :
    (init m_peer m_remote).ret = failed.2 ∧
      (init m_peer m_remote).calls = (done ++ [failed]).map Prod.fst ∧
      (init m_peer m_remote).m_pool_watcher = none := by
  unfold init_steps at hsteps
  rcases done with _ | ⟨d1, _ | ⟨d2, _ | ⟨d3, _ | ⟨d4, dr⟩⟩⟩⟩
  · simp only [List.nil_append, List.cons.injEq] at hsteps
    obtain ⟨hf, -⟩ := hsteps
    subst hf
    simp only at hfail
    simp [init, hfail]
  · simp only [List.cons_append, List.nil_append, List.cons.injEq] at hsteps
    obtain ⟨h1, hf, -⟩ := hsteps
    subst h1 hf
    have e1 := hdone _ (List.mem_cons_self _ _)
    simp only at hfail e1
    have n1 : ¬ m_remote.init2 m_peer.client_name m_peer.cluster_name < 0 := by omega
    simp [init, n1, hfail]
  · simp only [List.cons_append, List.nil_append, List.cons.injEq] at hsteps
    obtain ⟨h1, h2, hf, -⟩ := hsteps
    subst h1 h2 hf
    have e1 := hdone _ (List.mem_cons_self _ _)
    have e2 := hdone _ (List.mem_cons_of_mem _ (List.mem_cons_self _ _))
    simp only at hfail e1 e2
    have n1 : ¬ m_remote.init2 m_peer.client_name m_peer.cluster_name < 0 := by omega
    have n2 : ¬ m_remote.conf_read_file < 0 := by omega
    simp [init, n1, n2, hfail]
  · simp only [List.cons_append, List.nil_append, List.cons.injEq] at hsteps
    obtain ⟨h1, h2, h3, hf, -⟩ := hsteps
    subst h1 h2 h3 hf
    have e1 := hdone _ (List.mem_cons_self _ _)
    have e2 := hdone _ (List.mem_cons_of_mem _ (List.mem_cons_self _ _))
    have e3 := hdone _
      (List.mem_cons_of_mem _ (List.mem_cons_of_mem _ (List.mem_cons_self _ _)))
    simp only at hfail e1 e2 e3
    have n1 : ¬ m_remote.init2 m_peer.client_name m_peer.cluster_name < 0 := by omega
    have n2 : ¬ m_remote.conf_read_file < 0 := by omega
    have n3 : ¬ m_remote.connect < 0 := by omega
    simp [init, n1, n2, n3, hfail]
  · simp [List.cons_append] at hsteps

/-- Witness for C10: `init2` and `conf_read_file` succeed and `connect` fails
with `-110`. -/
theorem init_fail_fast_witness :
    (init ⟨"X", "remote", "client.admin"⟩ ⟨fun _ _ => 0, 0, -110, (0, "X")⟩).ret = -110 ∧
      (init ⟨"X", "remote", "client.admin"⟩ ⟨fun _ _ => 0, 0, -110, (0, "X")⟩).calls =
        [.init2, .conf_read_file, .connect] ∧
      (init ⟨"X", "remote", "client.admin"⟩ ⟨fun _ _ => 0, 0, -110, (0, "X")⟩).m_pool_watcher =
        none :=
  init_fail_fast ⟨"X", "remote", "client.admin"⟩ ⟨fun _ _ => 0, 0, -110, (0, "X")⟩
    [(.init2, 0), (.conf_read_file, 0)] (.connect, -110) [(.cluster_fsid, 0)]
    (by decide) (by decide) (by decide)

end rbd.mirror.Replayer

/-! ## Further facts about the `std::map` operations -/

namespace rbd.mirror.CppMap

variable {K V : Type} [DecidableEq K] [KeyOrder K]

omit [KeyOrder K] in
theorem mem_of_find_eq_some (k : K) (v : V) (m : List (K × V)) (h : find k m = some v) :
    (k, v) ∈ m := by
  induction m with
  | nil => simp [find] at h
  | cons e rest ih =>
    obtain ⟨a, w⟩ := e
    by_cases hak : a = k
    · simp only [find, hak, if_true, Option.some.injEq] at h
      simp [hak, h]
    · simp only [find, hak, if_false] at h
      exact List.mem_cons_of_mem _ (ih h)

omit [KeyOrder K] in
theorem exists_find_of_ne_nil (m : List (K × V)) (h : m ≠ []) :
    ∃ k v, find k m = some v := by
  cases m with
  | nil => exact absurd rfl h
  | cons e rest => exact ⟨e.1, e.2, by simp [find]⟩

omit [DecidableEq K] in
theorem mem_place (e : K × V) (k : K) (v : V) (m : List (K × V)) :
    e ∈ place k v m ↔ e = (k, v) ∨ e ∈ m := by
  induction m with
  | nil => simp [place]
  | cons x rest ih =>
    obtain ⟨a, w⟩ := x
    cases hlt : KeyOrder.less k a with
    | true => simp [place, hlt]
    | false =>
      simp only [place, hlt, Bool.false_eq_true, if_false, List.mem_cons, ih]
      tauto

omit [KeyOrder K] in
theorem mem_modify (e : K × V) (k : K) (f : V → V) (m : List (K × V))
    (h : e ∈ modify k f m) : e ∈ m ∨ ∃ v, e = (k, f v) := by
  induction m with
  | nil => simp [modify] at h
  | cons x rest ih =>
    obtain ⟨a, w⟩ := x
    by_cases hak : a = k
    · simp only [modify, hak, if_true, List.mem_cons] at h
      rcases h with h | h
      · exact Or.inr ⟨w, h⟩
      · exact Or.inl (List.mem_cons_of_mem _ h)
    · simp only [modify, hak, if_false, List.mem_cons] at h
      rcases h with h | h
      · exact Or.inl (by simp [h])
      · rcases ih h with h2 | h2
        · exact Or.inl (List.mem_cons_of_mem _ h2)
        · exact Or.inr h2

theorem modify_place_self (k : K) (v : V) (f : V → V) (m : List (K × V))
    (h : find k m = none) : modify k f (place k v m) = place k (f v) m := by
  induction m with
  | nil => simp [place, modify]
  | cons x rest ih =>
    obtain ⟨a, w⟩ := x
    by_cases hak : a = k
    · simp [find, hak] at h
    · simp only [find, hak, if_false] at h
      cases hlt : KeyOrder.less k a with
      | true => simp [place, hlt, modify]
      | false => simp [place, hlt, modify, hak, ih h]

omit [DecidableEq K] in
theorem place_ne_nil (k : K) (v : V) (m : List (K × V)) : place k v m ≠ [] := by
  cases m with
  | nil => simp [place]
  | cons x rest =>
    obtain ⟨a, w⟩ := x
    cases hlt : KeyOrder.less k a <;> simp [place, hlt]

theorem insert_ne_nil (k : K) (v : V) (m : List (K × V)) : insert k v m ≠ [] := by
  unfold insert
  cases hf : find k m with
  | none => exact place_ne_nil k v m
  | some w =>
    show m ≠ []
    intro hm
    rw [hm] at hf
    simp [find] at hf

end rbd.mirror.CppMap

/-! ## Further facts about the passes of `set_sources` -/

namespace rbd.mirror.Replayer

open CppMap

variable {W : Type}

theorem nonempty_insert_image (dst : ReplicaSet W) (p : PoolId) (i : ImageId) (w : W)
    (h : ∀ e ∈ dst, e.2 ≠ []) : ∀ e ∈ insert_image dst p i w, e.2 ≠ [] := by
  intro e he
  unfold insert_image at he
  cases hf : find p dst with
  | some imgs =>
    have hins : CppMap.insert p ([] : ImageMap W) dst = dst := by simp [CppMap.insert, hf]
    rw [hins] at he
    rcases mem_modify e p _ dst he with h1 | ⟨v, hv⟩
    · exact h e h1
    · rw [hv]
      exact insert_ne_nil i w v
  | none =>
    have hins : CppMap.insert p ([] : ImageMap W) dst = place p [] dst := by
      simp [CppMap.insert, hf]
    rw [hins, modify_place_self p [] _ dst hf, mem_place] at he
    rcases he with h1 | h1
    · rw [h1]
      exact insert_ne_nil i w []
    · exact h e h1

theorem nonempty_copy_images (ops : ImageReplayerOps W) (p : PoolId) (imgs : ImageMap W)
    (acc : ReplicaSet W) (h : ∀ e ∈ acc, e.2 ≠ []) :
    ∀ e ∈ imgs.foldl (fun acc2 x => insert_image acc2 p x.1 (ops.copy x.2)) acc,
      e.2 ≠ [] := by
  induction imgs generalizing acc with
  | nil => exact h
  | cons x rest ih =>
    rw [List.foldl_cons]
    exact ih _ (nonempty_insert_image acc p x.1 _ h)

theorem nonempty_copy_into (ops : ImageReplayerOps W) (dst src : ReplicaSet W)
    (h : ∀ e ∈ dst, e.2 ≠ []) : ∀ e ∈ copy_into ops dst src, e.2 ≠ [] := by
  unfold copy_into
  induction src generalizing dst with
  | nil => exact h
  | cons it rest ih =>
    rw [List.foldl_cons]
    exact ih _ (nonempty_copy_images ops it.1 it.2 dst h)

theorem find_removal_pass_of_absent (images : DesiredState) (ic : ReplicaSet W)
    (p : PoolId) (h : find p images = none) : find p (removal_pass images ic) = none := by
  induction ic with
  | nil => simp [removal_pass, find]
  | cons it rest ih =>
    obtain ⟨a, imgs⟩ := it
    unfold removal_pass at ih ⊢
    rw [List.filterMap_cons]
    cases hf : find a images with
    | none => exact ih
    | some s =>
      have hap : ¬ a = p := by
        intro hap
        rw [hap, h] at hf
        exact absurd hf (by simp)
      simp only [find, hap, if_false]
      exact ih

theorem run_from_eq (env : RunEnv W) (k : Nat) :
    ∀ (fuel n : Nat) (m_images : ReplicaSet W),
      (∀ j, j < k → env.stopping (n + j) = false) → env.stopping (n + k) = true →
      k < fuel →
      run_from env fuel n m_images =
        some (after_cycles env n k m_images,
          clear_iterations env n k ++ [.read_stopping true]) := by
  induction k with
  | zero =>
    intro fuel n m_images _ hset hfuel
    cases fuel with
    | zero => omega
    | succ f =>
      have hs : env.stopping n = true := by simpa using hset
      simp [run_from, hs, after_cycles, clear_iterations]
  | succ k ih =>
    intro fuel n m_images hclear hset hfuel
    cases fuel with
    | zero => omega
    | succ f =>
      have h0 : env.stopping n = false := by simpa using hclear 0 (by omega)
      have hnext := ih f (n + 1)
        (set_sources (env.ops n) (env.get_images n) m_images).1
        (fun j hj => by
          have := hclear (j + 1) (by omega)
          rwa [show n + (j + 1) = n + 1 + j by omega] at this)
        (by rwa [show n + (k + 1) = n + 1 + k by omega] at hset)
        (by omega)
      simp [run_from, h0, hnext, after_cycles, clear_iterations]

end rbd.mirror.Replayer

/-! ## Initialisation, loop and cycle: further settled properties -/

namespace rbd.mirror.Replayer

open CppMap

variable {W : Type}

/-- C11: `init` returns 0 exactly when `init2`, `conf_read_file`, `connect`
and `cluster_fsid` all return a non-negative code and the fetched fsid equals
the peer's expected cluster uuid; and when it returns 0 it has constructed the
`PoolWatcher` with an interval of 30 seconds and called `refresh_images` on it
once, after the four remote calls and before returning. -/
theorem init_success_iff (m_peer : peer_t) (m_remote : RemoteCluster) :
    ((init m_peer m_remote).ret = 0 ↔
        0 ≤ m_remote.init2 m_peer.client_name m_peer.cluster_name ∧
          0 ≤ m_remote.conf_read_file ∧ 0 ≤ m_remote.connect ∧
          0 ≤ m_remote.cluster_fsid.1 ∧
          m_remote.cluster_fsid.2 = m_peer.cluster_uuid) ∧
      ((init m_peer m_remote).ret = 0 →
        (init m_peer m_remote).m_pool_watcher = some ⟨30, 1⟩ ∧
          (init m_peer m_remote).calls =
            [.init2, .conf_read_file, .connect, .cluster_fsid, .new_pool_watcher 30,
              .refresh_images]) := by
  by_cases h1 : m_remote.init2 m_peer.client_name m_peer.cluster_name < 0
  · have hne : m_remote.init2 m_peer.client_name m_peer.cluster_name ≠ 0 := by omega
    have hnn : ¬ 0 ≤ m_remote.init2 m_peer.client_name m_peer.cluster_name := by omega
    simp [init, h1, hne, hnn]
  · by_cases h2 : m_remote.conf_read_file < 0
    · have hne : m_remote.conf_read_file ≠ 0 := by omega
      have hnn : ¬ 0 ≤ m_remote.conf_read_file := by omega
      simp [init, h1, h2, hne, hnn]
    · by_cases h3 : m_remote.connect < 0
      · have hne : m_remote.connect ≠ 0 := by omega
        have hnn : ¬ 0 ≤ m_remote.connect := by omega
        simp [init, h1, h2, h3, hne, hnn]
      · by_cases h4 : m_remote.cluster_fsid.1 < 0
        · have hne : m_remote.cluster_fsid.1 ≠ 0 := by omega
          have hnn : ¬ 0 ≤ m_remote.cluster_fsid.1 := by omega
          simp [init, h1, h2, h3, h4, hne, hnn]
        · have p1 : 0 ≤ m_remote.init2 m_peer.client_name m_peer.cluster_name := by omega
          have p2 : 0 ≤ m_remote.conf_read_file := by omega
          have p3 : 0 ≤ m_remote.connect := by omega
          have p4 : 0 ≤ m_remote.cluster_fsid.1 := by omega
          by_cases h5 : m_remote.cluster_fsid.2 = m_peer.cluster_uuid
          · simp [init, h1, h2, h3, h4, h5, p1, p2, p3, p4]
          · simp [init, h1, h2, h3, h4, h5, EINVAL]

/-- Witness for C11: every remote call succeeds and the fsid is the expected
one. -/
theorem init_success_iff_witness :
    (init ⟨"X", "remote", "client.admin"⟩ ⟨fun _ _ => 0, 0, 0, (0, "X")⟩).ret = 0 ∧
      (init ⟨"X", "remote", "client.admin"⟩ ⟨fun _ _ => 0, 0, 0, (0, "X")⟩).m_pool_watcher =
        some ⟨30, 1⟩ ∧
      (init ⟨"X", "remote", "client.admin"⟩ ⟨fun _ _ => 0, 0, 0, (0, "X")⟩).calls =
        [.init2, .conf_read_file, .connect, .cluster_fsid, .new_pool_watcher 30,
          .refresh_images] :=
  ⟨(init_success_iff ⟨"X", "remote", "client.admin"⟩ ⟨fun _ _ => 0, 0, 0, (0, "X")⟩).1.2
      (by decide),
    (init_success_iff ⟨"X", "remote", "client.admin"⟩ ⟨fun _ _ => 0, 0, 0, (0, "X")⟩).2
      (by decide)⟩

/-- C13 (removal pass): after the removal pass the worker stored under a pair
is the one the working set had when the pair's pool is a key of `D` and its
image is in that pool's set, and there is none otherwise; a pool that is not a
key of `D` is no longer a key of the working set at all. -/
theorem removal_pass_keeps_desired (images : DesiredState) (working : ReplicaSet W) :
    (∀ p i, lookup (removal_pass images working) p i =
        if desired images p i = true then lookup working p i else none) ∧
      (∀ p, find p images = none → find p (removal_pass images working) = none) :=
  ⟨fun p i => lookup_removal_pass images working p i,
    fun p h => find_removal_pass_of_absent images working p h⟩

/-- Witness for C13: pool 2 is not a key of `D` and is dropped; in pool 1 the
image `"a"` is desired and keeps its worker, the image `"b"` is not and goes. -/
theorem removal_pass_keeps_desired_witness :
    find 2 (removal_pass [(1, ["a"])]
        [(1, [("a", (⟨1, "a", true⟩ : TraceWorker)), ("b", ⟨1, "b", true⟩)]),
          (2, [("c", ⟨2, "c", true⟩)])]) = none ∧
      lookup (removal_pass [(1, ["a"])]
        [(1, [("a", (⟨1, "a", true⟩ : TraceWorker)), ("b", ⟨1, "b", true⟩)]),
          (2, [("c", ⟨2, "c", true⟩)])]) 1 "a" = some ⟨1, "a", true⟩ ∧
      lookup (removal_pass [(1, ["a"])]
        [(1, [("a", (⟨1, "a", true⟩ : TraceWorker)), ("b", ⟨1, "b", true⟩)]),
          (2, [("c", ⟨2, "c", true⟩)])]) 1 "b" = none :=
  ⟨(removal_pass_keeps_desired [(1, ["a"])]
      [(1, [("a", (⟨1, "a", true⟩ : TraceWorker)), ("b", ⟨1, "b", true⟩)]),
        (2, [("c", ⟨2, "c", true⟩)])]).2 2 (by decide),
    ((removal_pass_keeps_desired [(1, ["a"])]
      [(1, [("a", (⟨1, "a", true⟩ : TraceWorker)), ("b", ⟨1, "b", true⟩)]),
        (2, [("c", ⟨2, "c", true⟩)])]).1 1 "a").trans (by decide),
    ((removal_pass_keeps_desired [(1, ["a"])]
      [(1, [("a", (⟨1, "a", true⟩ : TraceWorker)), ("b", ⟨1, "b", true⟩)]),
        (2, [("c", ⟨2, "c", true⟩)])]).1 1 "b").trans (by decide)⟩

/-- C14 (the stop flag is read at the top of every iteration): when the flag
is set on entry, `run` returns having read the flag and done nothing else;
and when the flag is first found set at iteration `k`, `run` returns after
`k` iterations that each read the flag as clear, fetch the desired state
once, run one cycle against it and then wait, followed by the one read that
finds the flag set, after which no step is taken. -/
theorem run_reads_stop_flag_first (env : RunEnv W) (fuel : Nat) (m_images : ReplicaSet W) :
    (env.stopping 0 = true → 0 < fuel →
        run env fuel m_images = some (m_images, [.read_stopping true])) ∧
      (∀ k, (∀ j, j < k → env.stopping j = false) → env.stopping k = true → k < fuel →
        run env fuel m_images =
          some (after_cycles env 0 k m_images,
            clear_iterations env 0 k ++ [.read_stopping true])) := by
  constructor
  · intro hset hfuel
    have h := run_from_eq env 0 fuel 0 m_images (fun j hj => by omega) (by simpa using hset)
      hfuel
    simpa [run, after_cycles, clear_iterations] using h
  · intro k hclear hset hfuel
    exact run_from_eq env k fuel 0 m_images (fun j hj => by simpa using hclear j hj)
      (by simpa using hset) hfuel

/-- Witness for C14: the flag is clear at iterations 0 and 1 and set at
iteration 2. -/
theorem run_reads_stop_flag_first_witness :
    run (⟨fun j => decide (2 ≤ j), fun _ => [(1, ["img1"])], fun _ => traceOps []⟩ :
        RunEnv TraceWorker) 5 [] =
      some ([(1, [("img1", ⟨1, "img1", true⟩)])],
        [.read_stopping false, .get_images, .set_sources [(1, ["img1"])], .wait_interval 30,
          .read_stopping false, .get_images, .set_sources [(1, ["img1"])], .wait_interval 30,
          .read_stopping true]) :=
  ((run_reads_stop_flag_first
    (⟨fun j => decide (2 ≤ j), fun _ => [(1, ["img1"])], fun _ => traceOps []⟩ :
      RunEnv TraceWorker) 5 []).2 2 (by decide) (by decide) (by decide)).trans (by decide)

/-- C15: a pair is a key of `m_images` after a cycle exactly when it was a key
before the cycle or `start` was called for it in the cycle and succeeded
(`start` is called for the pairs of `D` that are not keys of `M`); so every key
present before the cycle is present after it. -/
theorem set_sources_key_set (ops : ImageReplayerOps W) (images : DesiredState)
    (m_images : ReplicaSet W) (hM : unique_pools m_images) (hD : map_of_sets images) :
    (∀ p i, has_key (set_sources ops images m_images).1 p i = true ↔
        has_key m_images p i = true ∨
          ((desired images p i = true ∧ has_key m_images p i = false) ∧
            (p, i) ∈ (set_sources ops images m_images).2 ∧ 0 ≤ start_code ops p i)) ∧
      (∀ p i, has_key m_images p i = true →
        has_key (set_sources ops images m_images).1 p i = true) := by
  constructor
  · intro p i
    rw [has_key_set_sources ops images m_images hM hD.1,
      mem_calls_set_sources ops images m_images hM hD]
    cases hk : has_key m_images p i <;> simp
  · intro p i hk
    rw [has_key_set_sources ops images m_images hM hD.1, hk]
    simp

/-- Witness for C15: `"img1"` is running and no longer desired, `"img2"`
starts, `"img3"` fails to start. -/
theorem set_sources_key_set_witness :
    has_key (set_sources (traceOps [(1, "img3")]) [(1, ["img2", "img3"])]
        [(1, [("img1", ⟨1, "img1", true⟩)])]).1 1 "img1" = true ∧
      has_key (set_sources (traceOps [(1, "img3")]) [(1, ["img2", "img3"])]
        [(1, [("img1", ⟨1, "img1", true⟩)])]).1 1 "img2" = true ∧
      ¬ has_key (set_sources (traceOps [(1, "img3")]) [(1, ["img2", "img3"])]
        [(1, [("img1", ⟨1, "img1", true⟩)])]).1 1 "img3" = true :=
  ⟨(set_sources_key_set (traceOps [(1, "img3")]) [(1, ["img2", "img3"])]
      [(1, [("img1", ⟨1, "img1", true⟩)])] (by decide) (by decide)).2 1 "img1" (by decide),
    ((set_sources_key_set (traceOps [(1, "img3")]) [(1, ["img2", "img3"])]
      [(1, [("img1", ⟨1, "img1", true⟩)])] (by decide) (by decide)).1 1 "img2").2
      (Or.inr (by decide)),
    fun h => absurd
      (((set_sources_key_set (traceOps [(1, "img3")]) [(1, ["img2", "img3"])]
        [(1, [("img1", ⟨1, "img1", true⟩)])] (by decide) (by decide)).1 1 "img3").1 h)
      (by decide)⟩

/-- C16 (frame): the worker stored in `m_images` under a key before the cycle
is the worker stored under that key after the cycle, whether or not the key is
a pair of `D`. -/
theorem set_sources_keeps_existing_worker (ops : ImageReplayerOps W)
    (images : DesiredState) (m_images : ReplicaSet W) (hM : unique_pools m_images)
    (hD : map_of_sets images) (p : PoolId) (i : ImageId) (w : W)
    (hw : lookup m_images p i = some w) :
    lookup (set_sources ops images m_images).1 p i = some w := by
  rw [lookup_set_sources ops images m_images hM hD.1, hw]
  simp

/-- Witness for C16: the worker under `(1, "img1")` stays, with `"img1"` in
the desired state and with the desired state empty. -/
theorem set_sources_keeps_existing_worker_witness :
    lookup (set_sources (traceOps []) [(1, ["img1", "img2"])]
        [(1, [("img1", ⟨1, "img1", true⟩)])]).1 1 "img1" = some ⟨1, "img1", true⟩ ∧
      lookup (set_sources (traceOps []) []
        [(1, [("img1", ⟨1, "img1", true⟩)])]).1 1 "img1" = some ⟨1, "img1", true⟩ :=
  ⟨set_sources_keeps_existing_worker (traceOps []) [(1, ["img1", "img2"])]
      [(1, [("img1", ⟨1, "img1", true⟩)])] (by decide) (by decide) 1 "img1" _ (by decide),
    set_sources_keeps_existing_worker (traceOps []) []
      [(1, [("img1", ⟨1, "img1", true⟩)])] (by decide) (by decide) 1 "img1" _ (by decide)⟩

/-- C17 (no empty pool entries): when no pool of `m_images` has an empty image
map before the cycle, none has one after it; and a pool that is not a key of
`m_images` before the cycle and for which every desired image fails to start
(in particular a pool whose desired set is empty) is not a key after it. -/
theorem set_sources_no_empty_pool (ops : ImageReplayerOps W) (images : DesiredState)
    (m_images : ReplicaSet W) (hM : unique_pools m_images) (hD : map_of_sets images)
    (hne : ∀ e ∈ m_images, e.2 ≠ []) :
    (∀ e ∈ (set_sources ops images m_images).1, e.2 ≠ []) ∧
      (∀ p, find p m_images = none →
        (∀ i, desired images p i = true → start_code ops p i < 0) →
        find p (set_sources ops images m_images).1 = none) := by
  have hall : ∀ e ∈ (set_sources ops images m_images).1, e.2 ≠ [] := by
    unfold set_sources
    exact nonempty_copy_into ops m_images _ hne
  refine ⟨hall, ?_⟩
  intro p hp hfail
  cases hfp : find p (set_sources ops images m_images).1 with
  | none => rfl
  | some imgs =>
    exfalso
    have hmem := mem_of_find_eq_some p imgs _ hfp
    obtain ⟨i, w, hiw⟩ := exists_find_of_ne_nil imgs (hall _ hmem)
    have hl : lookup (set_sources ops images m_images).1 p i = some w := by
      simp [lookup, hfp, hiw]
    rw [lookup_set_sources ops images m_images hM hD.1] at hl
    have hlm : lookup m_images p i = none := by simp [lookup, hp]
    rw [hlm, Option.none_or] at hl
    by_cases hd : desired images p i = true
    · have := hfail i hd
      have hn : ¬ 0 ≤ start_code ops p i := by omega
      simp [hd, hn] at hl
    · simp [hd] at hl

/-- Witness for C17: from the empty `m_images`, pool 1 has one desired image,
which fails to start, and pool 2 has an empty desired set; the working set gets
an empty entry for each of them and `m_images` gets none. -/
theorem set_sources_no_empty_pool_witness :
    (working_set (traceOps [(1, "a")]) [(1, ["a"]), (2, [])]
        ([] : ReplicaSet TraceWorker)).1 = [(1, []), (2, [])] ∧
      find 1 (set_sources (traceOps [(1, "a")]) [(1, ["a"]), (2, [])]
        ([] : ReplicaSet TraceWorker)).1 = none ∧
      find 2 (set_sources (traceOps [(1, "a")]) [(1, ["a"]), (2, [])]
        ([] : ReplicaSet TraceWorker)).1 = none :=
  ⟨by decide,
    (set_sources_no_empty_pool (traceOps [(1, "a")]) [(1, ["a"]), (2, [])] []
      (by decide) (by decide) (by simp)).2 1 (by decide)
      (fun i hd => by
        have hi : i = "a" := by simpa [desired, find] using hd
        subst hi
        decide),
    (set_sources_no_empty_pool (traceOps [(1, "a")]) [(1, ["a"]), (2, [])] []
      (by decide) (by decide) (by simp)).2 2 (by decide)
      (fun i hd => by simp [desired, find] at hd)⟩

end rbd.mirror.Replayer
